import Mathlib

/-!
# Verification of the TDM structural audit engine

A shallow embedding of the TDM engine (`tdm.py`, class `TDM`) and of its
calibrated FastAPI variant (`main.py`), together with proofs about the
embedded definitions.

Modelling conventions:
* Python arbitrary-precision non-negative integers are `ℕ`; the audited
  inputs are positive integers throughout the spec's data model.
* Python `float` values and their arithmetic are modelled as real numbers
  (`ℝ`), with decimal literals rendered as exact rationals
  (`1e-12 = 1/10^12`, `0.015 = 15/1000`, `2.8 = 28/10`, `0.25 = 1/4`,
  `4.5 = 9/2`, `0.01 = 1/100`).
* Fallible Python code (a `raise`, or a float division whose denominator
  can be zero) is modelled with `Option`: `none` is an escaping exception.
* `int.bit_length()` is `Nat.size`, and `str(n)` is the decimal digit
  list `digitsOf n` (digit order is irrelevant: only digit counts are
  consumed).
* Wall-clock data (the report timestamp) and I/O (logging, report files)
  are external collaborators and are not modelled.
-/

/-- Decimal digit list of `str(n)` for a natural number. Python renders
`0` as `"0"`, hence the special case; for positive `n` these are the
digits of `n` in base 10 (least-significant first). -/
def digitsOf (n : ℕ) : List ℕ :=
  if n = 0 then [0] else Nat.digits 10 n

/-- Python `int.bit_length()`: `0` for `0`, otherwise `⌊log2 n⌋ + 1`,
which is exactly `Nat.size`. -/
def bit_length (n : ℕ) : ℕ :=
  Nat.size n

/-- The multiset of occurrence counts of the values of a list, as
`collections.Counter(data).values()` / the `counts` dict of
`TDM._entropy` produce it: one count per distinct value. -/
def countsOf (data : List ℕ) : List ℕ :=
  data.dedup.map fun x => data.count x

/-- Python `max(counts.values())` (the list is nonempty in every use;
the `0` default is never reached there). -/
def maxCount (data : List ℕ) : ℕ :=
  (countsOf data).foldr max 0

/-- Shannon entropy in bits of the empirical distribution of the values
of a list: `-Σ (c/total) * log2 (c/total)` over the occurrence counts.
This is the formula of both `TDM._entropy` and the inline entropy of
`crypto_sanity_check`. -/
noncomputable def listEntropy (data : List ℕ) : ℝ :=
  -(((countsOf data).map fun (c : ℕ) =>
      ((c : ℝ) / (data.length : ℝ)) * Real.logb 2 ((c : ℝ) / (data.length : ℝ))).sum)

open Classical in
/-- Python float division: raises `ZeroDivisionError` on a zero
denominator, otherwise divides. -/
noncomputable def fdiv (a b : ℝ) : Option ℝ :=
  if b = 0 then none else some (a / b)

/-- `statistics.mean` on a list of floats (callers guard nonemptiness;
on `[]` Python raises, which each caller models separately). -/
noncomputable def rmean (l : List ℝ) : ℝ :=
  l.sum / (l.length : ℝ)

/-- `statistics.pstdev`: square root of the population variance. -/
noncomputable def rpstdev (l : List ℝ) : ℝ :=
  Real.sqrt ((l.map fun x => (x - rmean l) ^ 2).sum / (l.length : ℝ))

/-- Python `min(l)` for the nonempty lists it is applied to. -/
noncomputable def minList : List ℝ → ℝ
  | [] => 0
  | x :: xs => xs.foldl min x

/-- Python `max(l)` for the nonempty lists it is applied to. -/
noncomputable def maxList : List ℝ → ℝ
  | [] => 0
  | x :: xs => xs.foldl max x

namespace TDM

/-- The fixed default modulus set of the engine constructor: the first
15 odd primes, 3 to 53. -/
def defaultModuli : List ℕ :=
  [3, 5, 7, 11, 13, 17, 19, 23, 29, 31, 37, 41, 43, 47, 53]

/-- The constructor's `moduli or [...]`: `None` or an empty list falls
back to the default set. -/
def tdmModuli : Option (List ℕ) → List ℕ
  | none => defaultModuli
  | some l => if l = [] then defaultModuli else l

/-- The halving loop of `preprocess`: repeatedly divides by 2 while the
number is even. (Python's loop diverges at `0`; `preprocess` guards
`n > 1`, so that case is unreachable and the `n ≠ 0` conjunct makes the
model total.) -/
def stripTwos (n : ℕ) : ℕ :=
  if h : n % 2 = 0 ∧ n ≠ 0 then stripTwos (n / 2) else n
decreasing_by omega

/-- `TDM.preprocess`: rejects `n ≤ 1` (`ValueError`), then strips all
factors of two. -/
def preprocess (n : ℕ) : Option ℕ :=
  if n ≤ 1 then none else some (stripTwos n)

/-- The structural signature produced by `TDM.structural_map`. -/
structure StructuralSignature where
  residues : List ℕ
  bit_length : ℕ
  log_scale : ℝ

/-- `TDM.structural_map`: residues modulo each configured modulus, the
bit length, and the natural-log scale. -/
noncomputable def structural_map (moduli : List ℕ) (n : ℕ) : StructuralSignature :=
  ⟨moduli.map fun m => n % m, bit_length n, Real.log (n : ℝ)⟩

/-- The feature record produced by `TDM.operator`. -/
structure Features where
  mean : ℝ
  stdev : ℝ
  entropy : ℝ
  entropy_norm : ℝ
  symmetry : ℝ
  dispersion : ℝ
  scale : ℝ

/-- `TDM._residual_symmetry`: population stdev of the absolute
differences of consecutive residues; `0.0` when fewer than two
residues exist. -/
noncomputable def residual_symmetry (residues : List ℕ) : ℝ :=
  let diffs := List.zipWith (fun a b => ((a : ℤ) - (b : ℤ)).natAbs) residues.tail residues
  if diffs = [] then 0 else rpstdev (diffs.map fun d => (d : ℝ))

/-- The feature record of `TDM.operator` given the already-normalized
entropy value `en` (the one field whose computation can fail). -/
noncomputable def features_of (st : StructuralSignature) (en : ℝ) : Features :=
  let res := st.residues.map fun r => (r : ℝ)
  let mean := rmean res
  let stdev := rpstdev res
  ⟨mean, stdev, listEntropy st.residues, en, residual_symmetry st.residues,
    stdev / (mean + 1 / 10 ^ 12), st.log_scale⟩

/-- `TDM.operator`: reduces a structural signature to scalar features.
The entropy normalization divides by `log2(len(moduli))` with Python
float division — a `ZeroDivisionError` (here `none`) when that
denominator is zero, i.e. with exactly one modulus. -/
noncomputable def operator (moduli : List ℕ) (st : StructuralSignature) : Option Features :=
  (fdiv (listEntropy st.residues) (Real.logb 2 (moduli.length : ℝ))).map (features_of st)

/-- `TDM.extract_trace`: the fixed linear combination of the features. -/
noncomputable def extract_trace (f : Features) : ℝ :=
  f.mean + 2 * f.stdev + 3 * f.entropy_norm + f.symmetry + f.dispersion + (1 / 100) * f.scale

open Classical in
/-- `TDM.classify`: fixed thresholds 4.5 and 3.0. -/
noncomputable def classify (score : ℝ) : String :=
  if 9 / 2 ≤ score then "PROVAVEL_CHAVE_ARTIFICIAL"
  else if 3 ≤ score then "SUSPEITA_ESTRUTURAL"
  else "COMPATIVEL_COM_CHAVE_REAL"

/-- The record returned by `TDM.compute` for one input. -/
structure ComputeRecord where
  number : ℕ
  trace : ℝ
  features : Features

/-- `TDM.compute`: preprocess, map, reduce, extract; any escaping
exception from a stage propagates. -/
noncomputable def compute (moduli : List ℕ) (n : ℕ) : Option ComputeRecord :=
  match preprocess n with
  | none => none
  | some n0 =>
    match operator moduli (structural_map moduli n0) with
    | none => none
    | some f => some ⟨n, extract_trace f, f⟩

/-- The list comprehension `[self.compute(n) for n in numbers]`: the
first escaping exception aborts the whole batch. -/
noncomputable def computeAll (moduli : List ℕ) : List ℕ → Option (List ComputeRecord)
  | [] => some []
  | n :: rest =>
    match compute moduli n with
    | none => none
    | some e =>
      match computeAll moduli rest with
      | none => none
      | some es => some (e :: es)

/-- The empirical baseline block of the report. -/
structure Baseline where
  mean : ℝ
  stdev : ℝ
  min : ℝ
  max : ℝ

/-- One per-item entry of the empirical report. -/
structure ResultItem where
  number : ℕ
  trace : ℝ
  anomaly_score : ℝ
  classification : String

/-- The report of `TDM.audit` (timestamp omitted: wall-clock data). -/
structure Report where
  tdm_version : String
  baseline : Baseline
  results : List ResultItem

/-- `TDM.audit`: evaluates every input, computes the empirical baseline
over the batch traces, then scores each item against it. An empty batch
reaches `statistics.mean([])`, which raises (`none`); a failing
`compute` likewise aborts the batch. -/
noncomputable def audit (moduli : List ℕ) (numbers : List ℕ) : Option Report :=
  match computeAll moduli numbers with
  | none => none
  | some [] => none
  | some evaluations =>
    let traces := evaluations.map ComputeRecord.trace
    let base : Baseline := ⟨rmean traces, rpstdev traces, minList traces, maxList traces⟩
    some ⟨"TDM-ENGINE-CORE-1.0", base,
      evaluations.map fun e =>
        let score := |e.trace - base.mean| / (base.stdev + 1 / 10 ^ 12)
        ⟨e.number, e.trace, score, classify score⟩⟩

end TDM

namespace API

open Classical in
/-- `crypto_sanity_check` of `main.py`: the eliminatory filter. Reasons
are appended in source order; the decimal entropy condition uses the
same value-count entropy as `listEntropy` over the decimal digits. -/
noncomputable def crypto_sanity_check (n : ℕ) : List String :=
  (if listEntropy (digitsOf n) < 28 / 10 then ["low_decimal_entropy"] else []) ++
    ((if ((maxCount (digitsOf n) : ℝ) / ((digitsOf n).length : ℝ) > 1 / 4)
        then ["digit_repetition"] else []) ++
      ((if (digitsOf n).dedup.length ≤ 2 then ["low_symbol_diversity"] else []) ++
        ((if n = 10 ^ (digitsOf n).length - 1 then ["decimal_all_nines"] else []) ++
          (if bit_length n < 1024 then ["insufficient_bit_length"] else []))))

/-- `structural_invariant`: `ln(n) * ln(ln(n) + 1)`. -/
noncomputable def structural_invariant (n : ℕ) : ℝ :=
  Real.log (n : ℝ) * Real.log (Real.log (n : ℝ) + 1)

/-- `rsa_expected_invariant`: the calibrated expected value at a given
bit length. -/
noncomputable def rsa_expected_invariant (bitlen : ℕ) : ℝ :=
  (bitlen : ℝ) * Real.log 2 * Real.log ((bitlen : ℝ) * Real.log 2 + 1)

/-- `rsa_expected_deviation`: `0.015 * sqrt(bit_length)`. -/
noncomputable def rsa_expected_deviation (bitlen : ℕ) : ℝ :=
  (15 / 1000) * Real.sqrt (bitlen : ℝ)

/-- `calibrated_anomaly_score`: `abs(inv - expected) / deviation` — note
the bare denominator, with no epsilon term. -/
noncomputable def calibrated_anomaly_score (n : ℕ) : ℝ :=
  |structural_invariant n - rsa_expected_invariant (bit_length n)| /
    rsa_expected_deviation (bit_length n)

open Classical in
/-- `classify_structure`: fixed breakpoints 2.0 and 5.0, returning the
label and the technical note. -/
noncomputable def classify_structure (score : ℝ) : String × String :=
  if score < 2 then
    ("RSA-compatible",
      "Structural behavior consistent with calibrated RSA models (1024-8192 bits)")
  else if score < 5 then
    ("atypical",
      "Structurally plausible but statistically rare for calibrated RSA generation")
  else
    ("artificial-structure",
      "Structural deviation incompatible with realistic RSA generation")

/-- `generate_human_report`: the per-label natural-language report. -/
def generate_human_report (n : ℕ) (classification : String) : String :=
  if classification = "RSA-compatible" then
    "O inteiro " ++ toString n ++ " apresenta comportamento estrutural compativel com modulos RSA gerados por processos criptograficos reais, segundo calibracao formal ate 8192 bits."
  else if classification = "atypical" then
    "O inteiro " ++ toString n ++ " e estruturalmente plausivel, porem estatisticamente raro em modelos calibrados de geracao RSA."
  else if classification = "artificial-structure" then
    "O inteiro " ++ toString n ++ " apresenta desvios estruturais incompativeis com qualquer processo realista de geracao de chaves RSA."
  else
    "O inteiro " ++ toString n ++ " foi rejeitado por nao atender criterios minimos de sanidade criptografica."

/-- The fixed report text attached to a rejected integer in the `audit`
endpoint. -/
def rejection_report (n : ℕ) : String :=
  "O inteiro " ++ toString n ++ " foi rejeitado por apresentar caracteristicas incompativeis com qualquer geracao criptografica RSA real."

/-- One entry of the calibrated audit's `results` list: either the
rejection record built when the sanity filter fires (it carries no
score field at all) or the scored record. -/
inductive CalResult where
  | rejected (number : ℕ) (bitlen : ℕ) (classification : String)
      (technical_note : String) (reasons : List String) (human_report : String)
  | scored (number : ℕ) (bitlen : ℕ) (structural_inv : ℝ) (anomaly_score : ℝ)
      (classification : String) (technical_note : String) (human_report : String)

/-- The `number` key, present in both result shapes. -/
def CalResult.number : CalResult → ℕ
  | .rejected n _ _ _ _ _ => n
  | .scored n _ _ _ _ _ _ => n

/-- Python `round(x, d)`, modelled as rounding `x * 10^d` to the nearest
integer (the float-specific tie-breaking is irrelevant here). -/
noncomputable def roundTo (d : ℕ) (x : ℝ) : ℝ :=
  ((round (x * 10 ^ d) : ℤ) : ℝ) / 10 ^ d

/-- The per-item body of the `audit` endpoint loop: a nonempty reasons
list short-circuits to the fixed rejection record; otherwise the
calibrated score (scaled by the sensitivity) is computed and
classified. -/
noncomputable def apiAuditItem (sensitivity : ℝ) (n : ℕ) : CalResult :=
  let reasons := crypto_sanity_check n
  if reasons = [] then
    let score := calibrated_anomaly_score n * sensitivity
    let cl := classify_structure score
    CalResult.scored n (bit_length n) (roundTo 6 (structural_invariant n)) (roundTo 3 score)
      cl.1 cl.2 (generate_human_report n cl.1)
  else
    CalResult.rejected n (bit_length n) "artificial"
      "Rejected by cryptographic sanity filters" reasons (rejection_report n)

/-- The response of the calibrated `audit` endpoint. -/
structure ApiReport where
  engine : String
  calibration : String
  mode : String
  results : List CalResult

/-- The `audit` endpoint body: one result per input, in input order. -/
noncomputable def apiAudit (sensitivity : ℝ) (numbers : List ℕ) : ApiReport :=
  ⟨"TDM-R Structural Engine", "RSA-1024 to RSA-8192", "audit-only",
    numbers.map (apiAuditItem sensitivity)⟩

/-- The declarative bounds of the pydantic `AuditRequest` model:
`numbers` has `min_items=1, max_items=10` and `sensitivity` is
constrained to `[0.1, 5.0]`. -/
def auditRequestValid (numbers : List ℕ) (sensitivity : ℝ) : Prop :=
  1 ≤ numbers.length ∧ numbers.length ≤ 10 ∧ 1 / 10 ≤ sensitivity ∧ sensitivity ≤ 5

open Classical in
/-- The transport layer around the endpoint: pydantic validates the
request bounds before the handler runs; an invalid request is answered
with a client error (`none`) and the handler is never entered. -/
noncomputable def apiEndpoint (numbers : List ℕ) (sensitivity : ℝ) : Option ApiReport :=
  if auditRequestValid numbers sensitivity then some (apiAudit sensitivity numbers) else none

end API

/-! ## Basic facts about the preprocessing stage -/

theorem stripTwos_of_odd {n : ℕ} (h : n % 2 = 1) : TDM.stripTwos n = n := by
  rw [TDM.stripTwos]
  rw [dif_neg (by omega)]

theorem stripTwos_mod_two {n : ℕ} (h : n ≠ 0) : TDM.stripTwos n % 2 = 1 := by
  induction n using Nat.strong_induction_on with
  | _ n ih =>
    rw [TDM.stripTwos]
    by_cases he : n % 2 = 0 ∧ n ≠ 0
    · rw [dif_pos he]
      exact ih (n / 2) (by omega) (by omega)
    · rw [dif_neg he]
      omega

theorem stripTwos_pos {n : ℕ} (h : n ≠ 0) : 0 < TDM.stripTwos n := by
  have := stripTwos_mod_two h
  omega

theorem exists_two_pow_mul_stripTwos (n : ℕ) : ∃ k, n = 2 ^ k * TDM.stripTwos n := by
  induction n using Nat.strong_induction_on with
  | _ n ih =>
    by_cases he : n % 2 = 0 ∧ n ≠ 0
    · obtain ⟨k, hk⟩ := ih (n / 2) (by omega)
      refine ⟨k + 1, ?_⟩
      rw [TDM.stripTwos, dif_pos he]
      calc n = 2 * (n / 2) := by omega
        _ = 2 * (2 ^ k * TDM.stripTwos (n / 2)) := by rw [← hk]
        _ = 2 ^ (k + 1) * TDM.stripTwos (n / 2) := by ring
    · refine ⟨0, ?_⟩
      rw [TDM.stripTwos, dif_neg he]
      ring

theorem preprocess_eq_some {n : ℕ} (h : 1 < n) :
    TDM.preprocess n = some (TDM.stripTwos n) := by
  unfold TDM.preprocess
  rw [if_neg (by omega)]

/-- C5, counterexample: `preprocess` is not idempotent on powers of two.
`preprocess 2 = some 1`, but `1` is not a valid input to `preprocess`
(Python raises `ValueError`), so `preprocess(preprocess(2))` fails
instead of returning `preprocess 2`. -/
theorem preprocess_not_idempotent_on_pow_two :
    TDM.preprocess 2 = some 1 ∧ TDM.preprocess 1 = none ∧
      (TDM.preprocess 2).bind TDM.preprocess ≠ TDM.preprocess 2 := by
  have hs2 : TDM.stripTwos 2 = 1 := by
    rw [TDM.stripTwos, dif_pos (by omega)]
    rw [show (2 : ℕ) / 2 = 1 from rfl]
    exact stripTwos_of_odd (by omega)
  have h2 : TDM.preprocess 2 = some 1 := by
    rw [preprocess_eq_some (by omega), hs2]
  have h1 : TDM.preprocess 1 = none := by
    unfold TDM.preprocess
    rw [if_pos (by omega)]
  refine ⟨h2, h1, ?_⟩
  rw [h2]
  intro hcon
  rw [show (some 1).bind TDM.preprocess = TDM.preprocess 1 from rfl, h1] at hcon
  exact Option.noConfusion hcon

/-- C5, amended: for every valid input `n > 1` that is not a power of
two, `preprocess` is idempotent — the output is odd, is again a valid
input, and `preprocess (preprocess n) = preprocess n`. (On powers of
two the output is `1`, which `preprocess` rejects.) -/
theorem preprocess_idempotent_off_pow_two (n : ℕ) (h1 : 1 < n)
    (h2 : ¬ ∃ k, n = 2 ^ k) :
    ∃ m, TDM.preprocess n = some m ∧ 1 < m ∧ m % 2 = 1 ∧
      TDM.preprocess m = some m ∧
      (TDM.preprocess n).bind TDM.preprocess = TDM.preprocess n := by
  have hn0 : n ≠ 0 := by omega
  have hodd := stripTwos_mod_two hn0
  have hpos := stripTwos_pos hn0
  have hne1 : TDM.stripTwos n ≠ 1 := by
    intro h
    obtain ⟨k, hk⟩ := exists_two_pow_mul_stripTwos n
    exact h2 ⟨k, by rw [hk, h, mul_one]⟩
  have hm : 1 < TDM.stripTwos n := by omega
  refine ⟨TDM.stripTwos n, preprocess_eq_some h1, hm, hodd, ?_, ?_⟩
  · rw [preprocess_eq_some hm, stripTwos_of_odd hodd]
  · rw [preprocess_eq_some h1]
    rw [show (some (TDM.stripTwos n)).bind TDM.preprocess
        = TDM.preprocess (TDM.stripTwos n) from rfl]
    rw [preprocess_eq_some hm, stripTwos_of_odd hodd]

/-- C5, witness: the amended idempotence at the concrete valid input
`n = 6` (not a power of two). -/
theorem preprocess_idempotent_off_pow_two_witness :
    ∃ m, TDM.preprocess 6 = some m ∧ 1 < m ∧ m % 2 = 1 ∧
      TDM.preprocess m = some m ∧
      (TDM.preprocess 6).bind TDM.preprocess = TDM.preprocess 6 := by
  refine preprocess_idempotent_off_pow_two 6 (by omega) ?_
  rintro ⟨k, hk⟩
  have hk3 : k < 3 := by
    by_contra hge
    have : 2 ^ 3 ≤ 2 ^ k := Nat.pow_le_pow_right (by omega) (by omega)
    omega
  interval_cases k <;> omega

/-! ## Classification thresholds -/

/-- C2: both classifiers are monotone over their fixed breakpoints: any
score strictly below the first threshold gets the lowest-severity label
and any score at or above the second threshold gets the
highest-severity label (`classify_structure` with breakpoints 2.0/5.0,
`TDM.classify` with breakpoints 3.0/4.5). -/
theorem classification_monotone_thresholds (s : ℝ) :
    (s < 2 → (API.classify_structure s).1 = "RSA-compatible") ∧
    (5 ≤ s → (API.classify_structure s).1 = "artificial-structure") ∧
    (s < 3 → TDM.classify s = "COMPATIVEL_COM_CHAVE_REAL") ∧
    (9 / 2 ≤ s → TDM.classify s = "PROVAVEL_CHAVE_ARTIFICIAL") := by
  refine ⟨fun h => ?_, fun h => ?_, fun h => ?_, fun h => ?_⟩
  · unfold API.classify_structure
    rw [if_pos h]
  · unfold API.classify_structure
    rw [if_neg (by linarith), if_neg (by linarith)]
  · unfold TDM.classify
    rw [if_neg (by linarith), if_neg (by linarith)]
  · unfold TDM.classify
    rw [if_pos h]

/-- C2, witness: the four threshold regions at the concrete scores
1, 7, 1 and 5. -/
theorem classification_monotone_thresholds_witness :
    (API.classify_structure 1).1 = "RSA-compatible" ∧
    (API.classify_structure 7).1 = "artificial-structure" ∧
    TDM.classify 1 = "COMPATIVEL_COM_CHAVE_REAL" ∧
    TDM.classify 5 = "PROVAVEL_CHAVE_ARTIFICIAL" :=
  ⟨(classification_monotone_thresholds 1).1 (by norm_num),
    (classification_monotone_thresholds 7).2.1 (by norm_num),
    (classification_monotone_thresholds 1).2.2.1 (by norm_num),
    (classification_monotone_thresholds 5).2.2.2 (by norm_num)⟩

/-! ## Evaluation of the empirical pipeline on valid inputs -/

/-- The feature record `TDM.operator` returns when the entropy
normalization does not divide by zero. -/
noncomputable def operatorValue (moduli : List ℕ) (st : TDM.StructuralSignature) :
    TDM.Features :=
  TDM.features_of st (listEntropy st.residues / Real.logb 2 (moduli.length : ℝ))

theorem logb_moduli_pos {moduli : List ℕ} (hm : 2 ≤ moduli.length) :
    0 < Real.logb 2 (moduli.length : ℝ) := by
  refine Real.logb_pos (by norm_num) ?_
  exact_mod_cast hm.trans_lt' one_lt_two

theorem operator_eq_some {moduli : List ℕ} (hm : 2 ≤ moduli.length)
    (st : TDM.StructuralSignature) :
    TDM.operator moduli st = some (operatorValue moduli st) := by
  unfold TDM.operator fdiv
  rw [if_neg (ne_of_gt (logb_moduli_pos hm))]
  rfl

/-- The record `TDM.compute` produces for a valid input. -/
noncomputable def computeRecordOf (moduli : List ℕ) (n : ℕ) : TDM.ComputeRecord :=
  ⟨n, TDM.extract_trace (operatorValue moduli (TDM.structural_map moduli (TDM.stripTwos n))),
    operatorValue moduli (TDM.structural_map moduli (TDM.stripTwos n))⟩

theorem compute_eq_some {moduli : List ℕ} (hm : 2 ≤ moduli.length) {n : ℕ} (h : 1 < n) :
    TDM.compute moduli n = some (computeRecordOf moduli n) := by
  unfold TDM.compute
  rw [preprocess_eq_some h]
  simp only [operator_eq_some hm]
  rfl

theorem computeAll_eq {moduli : List ℕ} (hm : 2 ≤ moduli.length) :
    ∀ l : List ℕ, (∀ n ∈ l, 1 < n) →
      TDM.computeAll moduli l = some (l.map (computeRecordOf moduli)) := by
  intro l
  induction l with
  | nil => intro _; rfl
  | cons n rest ih =>
    intro h
    have h1 : 1 < n := h n (List.mem_cons_self n rest)
    have h2 : ∀ m ∈ rest, 1 < m := fun m hm' => h m (List.mem_cons_of_mem n hm')
    simp only [TDM.computeAll, compute_eq_some hm h1, ih h2, List.map]

/-- The report `TDM.audit` assembles for a nonempty batch of valid
inputs. -/
noncomputable def auditReport (moduli : List ℕ) (numbers : List ℕ) : TDM.Report :=
  let evaluations := numbers.map (computeRecordOf moduli)
  let traces := evaluations.map TDM.ComputeRecord.trace
  let base : TDM.Baseline := ⟨rmean traces, rpstdev traces, minList traces, maxList traces⟩
  ⟨"TDM-ENGINE-CORE-1.0", base,
    evaluations.map fun e =>
      ⟨e.number, e.trace, |e.trace - base.mean| / (base.stdev + 1 / 10 ^ 12),
        TDM.classify (|e.trace - base.mean| / (base.stdev + 1 / 10 ^ 12))⟩⟩

theorem audit_eq {moduli : List ℕ} (hm : 2 ≤ moduli.length) {numbers : List ℕ}
    (hne : numbers ≠ []) (hval : ∀ n ∈ numbers, 1 < n) :
    TDM.audit moduli numbers = some (auditReport moduli numbers) := by
  match numbers, hne with
  | n :: rest, _ =>
    unfold TDM.audit
    rw [computeAll_eq hm (n :: rest) hval]
    rfl

/-- C8: `compute` is deterministic: two evaluations of the same input
under the same engine configuration yield the same input echo, the same
trace and the same value for every feature field. -/
theorem compute_deterministic (moduli : List ℕ) (n : ℕ)
    (r₁ r₂ : TDM.ComputeRecord)
    (h₁ : TDM.compute moduli n = some r₁) (h₂ : TDM.compute moduli n = some r₂) :
    r₁.number = r₂.number ∧ r₁.trace = r₂.trace ∧ r₁.features = r₂.features := by
  rw [h₁] at h₂
  cases Option.some.inj h₂
  exact ⟨rfl, rfl, rfl⟩

/-- C8, witness: both hypotheses of `compute_deterministic` hold at the
concrete input `n = 3` under the default modulus configuration. -/
theorem compute_deterministic_witness :
    (computeRecordOf TDM.defaultModuli 3).number
        = (computeRecordOf TDM.defaultModuli 3).number ∧
      (computeRecordOf TDM.defaultModuli 3).trace
        = (computeRecordOf TDM.defaultModuli 3).trace ∧
      (computeRecordOf TDM.defaultModuli 3).features
        = (computeRecordOf TDM.defaultModuli 3).features :=
  compute_deterministic TDM.defaultModuli 3 _ _
    (compute_eq_some (by decide) (by decide))
    (compute_eq_some (by decide) (by decide))

/-! ## Batch structure: order preservation and scoring formulas -/

theorem map_map_id {α β : Type} (f : α → β) (g : β → α) (h : ∀ a, g (f a) = a) :
    ∀ l : List α, (l.map f).map g = l := by
  intro l
  induction l with
  | nil => rfl
  | cons x xs ih => simp only [List.map, h x, ih]

theorem apiAuditItem_number (s : ℝ) (n : ℕ) : (API.apiAuditItem s n).number = n := by
  simp only [API.apiAuditItem]
  split
  · rfl
  · rfl

/-- C9: for every valid batch, both audits return one result per input
integer, in input order, each echoing its input number: mapping the
`number` projection over the results recovers the input list exactly. -/
theorem audit_preserves_input_order (numbers : List ℕ) (s : ℝ)
    (h1 : numbers ≠ []) (h2 : ∀ n ∈ numbers, 1 < n) :
    (∃ r, TDM.audit TDM.defaultModuli numbers = some r ∧
        r.results.map TDM.ResultItem.number = numbers) ∧
      (API.apiAudit s numbers).results.map API.CalResult.number = numbers := by
  constructor
  · refine ⟨auditReport TDM.defaultModuli numbers, audit_eq (by decide) h1 h2, ?_⟩
    simp only [auditReport]
    rw [List.map_map]
    apply map_map_id
    intro a
    rfl
  · show (numbers.map (API.apiAuditItem s)).map API.CalResult.number = numbers
    exact map_map_id _ _ (apiAuditItem_number s) numbers

/-- C9, witness: order preservation at the concrete valid batch `[2, 3]`
with sensitivity 1. -/
theorem audit_preserves_input_order_witness :
    (∃ r, TDM.audit TDM.defaultModuli [2, 3] = some r ∧
        r.results.map TDM.ResultItem.number = [2, 3]) ∧
      (API.apiAudit 1 [2, 3]).results.map API.CalResult.number = [2, 3] :=
  audit_preserves_input_order [2, 3] 1 (by decide) (by decide)

/-- C1, amended: the epsilon guard (`+ 1e-12` on the deviation) is
present in the empirical scoring of `TDM.audit`, where every result's
anomaly score is `|trace - mean| / (stdev + 1e-12)`; the calibrated
scoring divides by the raw expected deviation, with no epsilon term. -/
theorem anomaly_score_formulas :
    (∀ (moduli numbers : List ℕ), 2 ≤ moduli.length → numbers ≠ [] →
        (∀ n ∈ numbers, 1 < n) →
        ∃ r, TDM.audit moduli numbers = some r ∧
          ∀ e ∈ r.results,
            e.anomaly_score = |e.trace - r.baseline.mean| / (r.baseline.stdev + 1 / 10 ^ 12)) ∧
      ∀ n : ℕ, API.calibrated_anomaly_score n =
        |API.structural_invariant n - API.rsa_expected_invariant (bit_length n)| /
          API.rsa_expected_deviation (bit_length n) := by
  constructor
  · intro moduli numbers hm hne hval
    refine ⟨auditReport moduli numbers, audit_eq hm hne hval, ?_⟩
    intro e he
    simp only [auditReport] at he ⊢
    obtain ⟨ev, _, rfl⟩ := List.mem_map.mp he
    rfl
  · intro n
    rfl

/-- C1, witness: the empirical epsilon-guarded formula holds on the
concrete batch `[3]`, and the calibrated epsilon-free formula at the
concrete input `4`. -/
theorem anomaly_score_formulas_witness :
    (∃ r, TDM.audit TDM.defaultModuli [3] = some r ∧
        ∀ e ∈ r.results,
          e.anomaly_score = |e.trace - r.baseline.mean| / (r.baseline.stdev + 1 / 10 ^ 12)) ∧
      API.calibrated_anomaly_score 4 =
        |API.structural_invariant 4 - API.rsa_expected_invariant (bit_length 4)| /
          API.rsa_expected_deviation (bit_length 4) :=
  ⟨anomaly_score_formulas.1 TDM.defaultModuli [3] (by decide) (by decide) (by decide),
    anomaly_score_formulas.2 4⟩

theorem rmean_singleton (x : ℝ) : rmean [x] = x := by
  simp [rmean]

theorem rpstdev_singleton (x : ℝ) : rpstdev [x] = 0 := by
  simp [rpstdev, rmean]

/-- C4: a single-item batch `audit([n])` with valid `n` raises no
division error: it returns a report with exactly one result, whose
baseline satisfies `min = max = mean = trace(n)` and whose single
anomaly score is `0` (the epsilon guard keeps the denominator positive
at zero stdev). -/
theorem single_item_audit (n : ℕ) (h : 1 < n) :
    ∃ r, TDM.audit TDM.defaultModuli [n] = some r ∧
      r.results.length = 1 ∧
      r.baseline.min = r.baseline.mean ∧ r.baseline.max = r.baseline.mean ∧
      ∀ e ∈ r.results, e.trace = r.baseline.mean ∧ e.anomaly_score = 0 := by
  have hne : ([n] : List ℕ) ≠ [] := by simp
  have hval : ∀ m ∈ ([n] : List ℕ), 1 < m := by simpa using h
  refine ⟨auditReport TDM.defaultModuli [n], audit_eq (by decide) hne hval, ?_, ?_, ?_, ?_⟩
  · simp [auditReport]
  · simp [auditReport, rmean_singleton, minList]
  · simp [auditReport, rmean_singleton, maxList]
  · intro e he
    simp only [auditReport, List.map] at he ⊢
    rw [List.mem_singleton] at he
    subst he
    constructor
    · simp [rmean_singleton]
    · simp [rmean_singleton, rpstdev_singleton]

/-- C4, witness: the single-item audit at the concrete valid input
`n = 3`. -/
theorem single_item_audit_witness :
    ∃ r, TDM.audit TDM.defaultModuli [3] = some r ∧
      r.results.length = 1 ∧
      r.baseline.min = r.baseline.mean ∧ r.baseline.max = r.baseline.mean ∧
      ∀ e ∈ r.results, e.trace = r.baseline.mean ∧ e.anomaly_score = 0 :=
  single_item_audit 3 (by norm_num)

/-! ## Where the batch-size and sensitivity bounds are enforced -/

/-- The length of the results list carried by an optional report. -/
def auditResultsLength : Option TDM.Report → ℕ
  | none => 0
  | some r => r.results.length

/-- C7, counterexample: `TDM.audit` itself performs no batch-size
validation: a batch of 11 items — above the fixed maximum of 10 — is
fully processed into a report with 11 results instead of being
rejected. -/
theorem tdm_audit_accepts_oversized_batch :
    (TDM.audit TDM.defaultModuli (List.replicate 11 3)).isSome = true ∧
      auditResultsLength (TDM.audit TDM.defaultModuli (List.replicate 11 3)) = 11 := by
  have hm : 2 ≤ TDM.defaultModuli.length := by decide
  have hne : (List.replicate 11 3 : List ℕ) ≠ [] := by decide
  have hval : ∀ n ∈ (List.replicate 11 3 : List ℕ), 1 < n := by decide
  have h := audit_eq hm hne hval
  rw [h]
  refine ⟨rfl, ?_⟩
  simp [auditResultsLength, auditReport]

/-- C7, amended: the batch-size bounds (1 to 10 items) and the
sensitivity bounds (0.1 to 5.0) are enforced only by the calibrated
endpoint's request model, which rejects an invalid request before the
handler does any per-item processing; the empirical `TDM.audit` applies
no such validation and fully processes batches over the maximum. -/
theorem bounds_validation_location :
    (∀ (numbers : List ℕ) (s : ℝ), ¬ API.auditRequestValid numbers s →
        API.apiEndpoint numbers s = none) ∧
      (∀ (numbers : List ℕ) (s : ℝ), API.auditRequestValid numbers s →
        API.apiEndpoint numbers s = some (API.apiAudit s numbers)) ∧
      ∀ l : List ℕ, 10 < l.length → (∀ n ∈ l, 1 < n) →
        ∃ r, TDM.audit TDM.defaultModuli l = some r ∧ r.results.length = l.length := by
  refine ⟨fun numbers s h => ?_, fun numbers s h => ?_, fun l hlen hval => ?_⟩
  · unfold API.apiEndpoint
    rw [if_neg h]
  · unfold API.apiEndpoint
    rw [if_pos h]
  · have hne : l ≠ [] := by
      intro he
      rw [he] at hlen
      simp at hlen
    refine ⟨auditReport TDM.defaultModuli l, audit_eq (by decide) hne hval, ?_⟩
    simp [auditReport]

/-- C7, witness: the endpoint rejects the oversized request
`(11 items, sensitivity 1)`, while `TDM.audit` processes those same 11
items in full. -/
theorem bounds_validation_location_witness :
    API.apiEndpoint (List.replicate 11 3) 1 = none ∧
      ∃ r, TDM.audit TDM.defaultModuli (List.replicate 11 3) = some r ∧
        r.results.length = (List.replicate 11 3).length :=
  ⟨bounds_validation_location.1 (List.replicate 11 3) 1 (fun hcon => by
      have hlen := hcon.2.1
      rw [List.length_replicate] at hlen
      omega),
    bounds_validation_location.2.2 (List.replicate 11 3) (by decide) (by decide)⟩

/-! ## Entropy bounds and the missing one-modulus guard -/

theorem sum_map_cast (l : List ℕ) : (l.map fun (c : ℕ) => (c : ℝ)).sum = ((l.sum : ℕ) : ℝ) := by
  induction l with
  | nil => simp
  | cons x xs ih => rw [List.map_cons, List.sum_cons, List.sum_cons, Nat.cast_add, ih]

theorem countsOf_sum (l : List ℕ) : (countsOf l).sum = l.length :=
  List.sum_map_count_dedup_eq_length l

theorem countsOf_mem_bounds {l : List ℕ} {c : ℕ} (hc : c ∈ countsOf l) :
    1 ≤ c ∧ c ≤ l.length := by
  obtain ⟨x, hx, rfl⟩ := List.mem_map.mp hc
  exact ⟨List.count_pos_iff.mpr (List.mem_dedup.mp hx), List.count_le_length x l⟩

theorem listEntropy_nonneg (l : List ℕ) : 0 ≤ listEntropy l := by
  unfold listEntropy
  rw [neg_nonneg]
  have hbound : ∀ c ∈ countsOf l,
      ((c : ℝ) / (l.length : ℝ)) * Real.logb 2 ((c : ℝ) / (l.length : ℝ)) ≤ (0 : ℝ) := by
    intro c hc
    obtain ⟨h1, h2⟩ := countsOf_mem_bounds hc
    have hlen : 0 < l.length := lt_of_lt_of_le h1 h2
    have hlenR : (0 : ℝ) < (l.length : ℝ) := by exact_mod_cast hlen
    have hp0 : (0 : ℝ) ≤ (c : ℝ) / (l.length : ℝ) := by positivity
    have hp1 : (c : ℝ) / (l.length : ℝ) ≤ 1 := by
      rw [div_le_one hlenR]
      exact_mod_cast h2
    have hlog : Real.logb 2 ((c : ℝ) / (l.length : ℝ)) ≤ 0 :=
      Real.logb_nonpos (by norm_num) hp0 hp1
    calc ((c : ℝ) / (l.length : ℝ)) * Real.logb 2 ((c : ℝ) / (l.length : ℝ))
        ≤ ((c : ℝ) / (l.length : ℝ)) * 0 := mul_le_mul_of_nonneg_left hlog hp0
      _ = 0 := mul_zero _
  have h0 := List.sum_le_sum hbound
  simpa using h0

theorem listEntropy_le_logb_length (l : List ℕ) (hne : l ≠ []) :
    listEntropy l ≤ Real.logb 2 (l.length : ℝ) := by
  have hlen : 0 < l.length := List.length_pos.mpr hne
  have hlenR : (0 : ℝ) < (l.length : ℝ) := by exact_mod_cast hlen
  have hterm : ∀ c ∈ countsOf l,
      (-(Real.logb 2 (l.length : ℝ) / (l.length : ℝ))) * (c : ℝ) ≤
        ((c : ℝ) / (l.length : ℝ)) * Real.logb 2 ((c : ℝ) / (l.length : ℝ)) := by
    intro c hc
    obtain ⟨h1, h2⟩ := countsOf_mem_bounds hc
    have hc0 : (0 : ℝ) < (c : ℝ) := by exact_mod_cast h1
    have hlogc : 0 ≤ Real.logb 2 (c : ℝ) :=
      Real.logb_nonneg (by norm_num) (by exact_mod_cast h1)
    have hdiv : Real.logb 2 ((c : ℝ) / (l.length : ℝ)) =
        Real.logb 2 (c : ℝ) - Real.logb 2 (l.length : ℝ) :=
      Real.logb_div (ne_of_gt hc0) (ne_of_gt hlenR)
    have hlb : -(Real.logb 2 (l.length : ℝ)) ≤ Real.logb 2 ((c : ℝ) / (l.length : ℝ)) := by
      rw [hdiv]
      linarith
    have hp0 : (0 : ℝ) ≤ (c : ℝ) / (l.length : ℝ) := by positivity
    have hmul := mul_le_mul_of_nonneg_left hlb hp0
    calc (-(Real.logb 2 (l.length : ℝ) / (l.length : ℝ))) * (c : ℝ)
        = ((c : ℝ) / (l.length : ℝ)) * (-(Real.logb 2 (l.length : ℝ))) := by ring
      _ ≤ ((c : ℝ) / (l.length : ℝ)) * Real.logb 2 ((c : ℝ) / (l.length : ℝ)) := hmul
  have hsum := List.sum_le_sum hterm
  have hlower :
      ((countsOf l).map fun (c : ℕ) =>
          (-(Real.logb 2 (l.length : ℝ) / (l.length : ℝ))) * (c : ℝ)).sum
        = -(Real.logb 2 (l.length : ℝ)) := by
    rw [List.sum_map_mul_left, sum_map_cast, countsOf_sum]
    field_simp
  unfold listEntropy
  rw [neg_le]
  exact le_trans (le_of_eq hlower.symm) hsum

/-- C6, counterexample: the entropy normalization of `TDM.operator` has
no one-modulus guard: with exactly one modulus the divisor is
`log2(1) = 0` (not the claimed `1.0`) and the operator performs a
division by zero (a Python `ZeroDivisionError`, modelled as `none`). -/
theorem operator_single_modulus_div_zero :
    Real.logb 2 ((([3] : List ℕ).length : ℝ)) = 0 ∧
      TDM.operator [3] (TDM.structural_map [3] 5) = none := by
  have h0 : Real.logb 2 ((([3] : List ℕ).length : ℝ)) = 0 := by
    norm_num
  refine ⟨h0, ?_⟩
  unfold TDM.operator fdiv
  rw [if_pos h0]
  rfl

/-- C6, amended: the operator always divides the residue-value entropy
by `log2(count of moduli)` (no guard; with one modulus this is a
division by zero), and for configurations with at least two moduli the
normalized entropy is well defined and lies in `[0, 1]`. -/
theorem entropy_norm_bounds (moduli : List ℕ) (st : TDM.StructuralSignature)
    (hm : 2 ≤ moduli.length) (hr : st.residues.length = moduli.length) :
    ∃ f, TDM.operator moduli st = some f ∧
      f.entropy_norm = listEntropy st.residues / Real.logb 2 (moduli.length : ℝ) ∧
      0 ≤ f.entropy_norm ∧ f.entropy_norm ≤ 1 := by
  refine ⟨operatorValue moduli st, operator_eq_some hm st, rfl, ?_, ?_⟩
  · show 0 ≤ listEntropy st.residues / Real.logb 2 (moduli.length : ℝ)
    exact div_nonneg (listEntropy_nonneg _) (le_of_lt (logb_moduli_pos hm))
  · show listEntropy st.residues / Real.logb 2 (moduli.length : ℝ) ≤ 1
    rw [div_le_one (logb_moduli_pos hm)]
    have hne : st.residues ≠ [] := by
      intro h
      rw [h] at hr
      simp at hr
      omega
    have hle := listEntropy_le_logb_length st.residues hne
    rwa [hr] at hle

/-- C6, witness: the two-modulus configuration `[3, 5]` on the signature
of the input `7`: the operator succeeds and its normalized entropy lies
in `[0, 1]`. -/
theorem entropy_norm_bounds_witness :
    ∃ f, TDM.operator [3, 5] (TDM.structural_map [3, 5] 7) = some f ∧
      f.entropy_norm = listEntropy (TDM.structural_map [3, 5] 7).residues /
          Real.logb 2 ((([3, 5] : List ℕ).length : ℝ)) ∧
      0 ≤ f.entropy_norm ∧ f.entropy_norm ≤ 1 :=
  entropy_norm_bounds [3, 5] (TDM.structural_map [3, 5] 7) (by decide) rfl

/-! ## The calibrated sanity filter: rejection of short integers -/

theorem insufficient_mem {n : ℕ} (h : bit_length n < 1024) :
    "insufficient_bit_length" ∈ API.crypto_sanity_check n := by
  have hlast : "insufficient_bit_length" ∈
      (if bit_length n < 1024 then ["insufficient_bit_length"] else ([] : List String)) := by
    rw [if_pos h]
    exact List.mem_singleton_self _
  simp only [API.crypto_sanity_check, List.mem_append]
  exact Or.inr (Or.inr (Or.inr (Or.inr hlast)))

theorem apiAuditItem_rejected {n : ℕ} (h : API.crypto_sanity_check n ≠ []) (s : ℝ) :
    API.apiAuditItem s n = API.CalResult.rejected n (bit_length n) "artificial"
      "Rejected by cryptographic sanity filters" (API.crypto_sanity_check n)
      (API.rejection_report n) := by
  simp only [API.apiAuditItem]
  rw [if_neg h]

/-- C3: any integer with bit length below the 1024-bit calibration floor
is rejected by the sanity filter with "insufficient_bit_length" among
its reasons, receives the fixed classification "artificial" through a
rejection record that carries no calibrated score field at all, and
still occupies its original position in the calibrated audit's results
sequence. -/
theorem low_bitlength_rejected (n : ℕ) (h : bit_length n < 1024) :
    "insufficient_bit_length" ∈ API.crypto_sanity_check n ∧
      (∀ s : ℝ, API.apiAuditItem s n = API.CalResult.rejected n (bit_length n) "artificial"
        "Rejected by cryptographic sanity filters" (API.crypto_sanity_check n)
        (API.rejection_report n)) ∧
      ∀ (s : ℝ) (numbers : List ℕ) (i : ℕ) (hi : i < numbers.length),
        numbers.get ⟨i, hi⟩ = n →
          (API.apiAudit s numbers).results[i]? =
            some (API.CalResult.rejected n (bit_length n) "artificial"
              "Rejected by cryptographic sanity filters" (API.crypto_sanity_check n)
              (API.rejection_report n)) := by
  have hmem := insufficient_mem h
  have hne := List.ne_nil_of_mem hmem
  refine ⟨hmem, fun s => apiAuditItem_rejected hne s, ?_⟩
  intro s numbers i hi hget
  rw [List.get_eq_getElem] at hget
  show (numbers.map (API.apiAuditItem s))[i]? = _
  rw [List.getElem?_map, List.getElem?_eq_getElem hi, hget]
  simp only [Option.map_some']
  rw [apiAuditItem_rejected hne s]

/-- C3, witness: the concrete input `9999999999999999999999999999`
(94 bits, far below the 1024-bit floor) in a singleton calibrated audit
at sensitivity 1: it is rejected with "insufficient_bit_length" among
the reasons and sits at position 0 of the results. -/
theorem low_bitlength_rejected_witness :
    "insufficient_bit_length" ∈ API.crypto_sanity_check 9999999999999999999999999999 ∧
      (API.apiAudit 1 [9999999999999999999999999999]).results[0]? =
        some (API.CalResult.rejected 9999999999999999999999999999
          (bit_length 9999999999999999999999999999) "artificial"
          "Rejected by cryptographic sanity filters"
          (API.crypto_sanity_check 9999999999999999999999999999)
          (API.rejection_report 9999999999999999999999999999)) := by
  have h : bit_length 9999999999999999999999999999 < 1024 := by
    have hle := Nat.size_le.mpr
      (show (9999999999999999999999999999 : ℕ) < 2 ^ 1023 by norm_num)
    unfold bit_length
    omega
  have hthm := low_bitlength_rejected 9999999999999999999999999999 h
  exact ⟨hthm.1, hthm.2.2 1 [9999999999999999999999999999] 0 (by simp) rfl⟩

/-! ## A concrete 1034-bit integer that passes the sanity filter -/

/-- `j` copies of the decimal block `12345678`, concatenated: the
recurrence appends one more block at the low end. -/
def repBlock : ℕ → ℕ
  | 0 => 0
  | j + 1 => 12345678 + 10 ^ 8 * repBlock j

/-- The 312-digit (1034-bit) integer whose decimal expansion is the
block `12345678` repeated 39 times. -/
def Npat : ℕ :=
  123456781234567812345678123456781234567812345678123456781234567812345678123456781234567812345678123456781234567812345678123456781234567812345678123456781234567812345678123456781234567812345678123456781234567812345678123456781234567812345678123456781234567812345678123456781234567812345678123456781234567812345678

/-- The decimal digit list of `Npat` (least-significant first). -/
def patDigits : List ℕ :=
  (List.replicate 39 ([8, 7, 6, 5, 4, 3, 2, 1] : List ℕ)).flatten

theorem Npat_eq_repBlock : Npat = repBlock 39 := by decide

theorem digits_12345678 : Nat.digits 10 12345678 = [8, 7, 6, 5, 4, 3, 2, 1] := by
  norm_num [Nat.digits_def']

theorem digits_repBlock :
    ∀ j, Nat.digits 10 (repBlock j) =
      (List.replicate j ([8, 7, 6, 5, 4, 3, 2, 1] : List ℕ)).flatten := by
  intro j
  induction j with
  | zero => simp [repBlock]
  | succ j ih =>
    have happ := Nat.digits_append_digits
      (b := 10) (n := 12345678) (m := repBlock j) (by norm_num)
    rw [digits_12345678] at happ
    rw [show ([8, 7, 6, 5, 4, 3, 2, 1] : List ℕ).length = 8 from rfl] at happ
    rw [show repBlock (j + 1) = 12345678 + 10 ^ 8 * repBlock j from rfl]
    rw [← happ, ih, List.replicate_succ]
    rfl

theorem digitsOf_Npat : digitsOf Npat = patDigits := by
  unfold digitsOf
  rw [if_neg (by decide : ¬ Npat = 0), Npat_eq_repBlock, digits_repBlock]
  rfl

theorem size_Npat : Nat.size Npat = 1034 := by
  have h1 : Nat.size Npat ≤ 1034 := Nat.size_le.mpr (by norm_num [Npat])
  have h2 : 1033 < Nat.size Npat := Nat.lt_size.mpr (by norm_num [Npat])
  omega

theorem logb_39_312 : Real.logb 2 ((39 : ℝ) / 312) = -3 := by
  have h : (39 : ℝ) / 312 = ((2 : ℝ) ^ (3 : ℕ))⁻¹ := by norm_num
  have h2 : Real.log 2 ≠ 0 := ne_of_gt (Real.log_pos (by norm_num))
  rw [h, Real.logb, Real.log_inv, Real.log_pow]
  field_simp

set_option maxRecDepth 100000 in
theorem entropy_patDigits : listEntropy patDigits = 3 := by
  unfold listEntropy
  rw [show countsOf patDigits = List.replicate 8 39 from by decide]
  rw [show patDigits.length = 312 from by decide]
  rw [List.map_replicate, List.sum_replicate, nsmul_eq_mul]
  push_cast
  rw [logb_39_312]
  norm_num

set_option maxRecDepth 100000 in
set_option exponentiation.threshold 400 in
theorem sanity_Npat : API.crypto_sanity_check Npat = [] := by
  have hent : ¬ (listEntropy patDigits < 28 / 10) := by
    rw [entropy_patDigits]
    norm_num
  have hmax : ¬ ((maxCount patDigits : ℝ) / ((patDigits.length : ℕ) : ℝ) > 1 / 4) := by
    rw [show maxCount patDigits = 39 from by decide, show patDigits.length = 312 from by decide]
    norm_num
  have hdedup : ¬ (patDigits.dedup.length ≤ 2) := by decide
  have hnines : ¬ (Npat = 10 ^ patDigits.length - 1) := by
    rw [show patDigits.length = 312 from by decide]
    decide
  have hbits : ¬ (bit_length Npat < 1024) := by
    unfold bit_length
    rw [size_Npat]
    omega
  unfold API.crypto_sanity_check
  rw [digitsOf_Npat]
  rw [if_neg hent, if_neg hmax, if_neg hdedup, if_neg hnines, if_neg hbits]
  rfl

/-- C10: any integer that passes the sanity filter has bit length at
least 1024, so on the calibrated scoring path the expected deviation
`0.015 * sqrt(bit_length)` is strictly positive and the unguarded
division of `calibrated_anomaly_score` is safe. -/
theorem sanity_pass_implies_positive_deviation (n : ℕ)
    (h : API.crypto_sanity_check n = []) :
    1024 ≤ bit_length n ∧ 0 < API.rsa_expected_deviation (bit_length n) ∧
      API.rsa_expected_deviation (bit_length n) ≠ 0 := by
  have hb : 1024 ≤ bit_length n := by
    by_contra hlt
    push_neg at hlt
    exact List.ne_nil_of_mem (insufficient_mem hlt) h
  have hcast : (0 : ℝ) < ((bit_length n : ℕ) : ℝ) := by
    have : 0 < bit_length n := lt_of_lt_of_le (by norm_num) hb
    exact_mod_cast this
  have hsqrt : 0 < Real.sqrt ((bit_length n : ℕ) : ℝ) := Real.sqrt_pos.mpr hcast
  have hpos : 0 < API.rsa_expected_deviation (bit_length n) := by
    unfold API.rsa_expected_deviation
    exact mul_pos (by norm_num) hsqrt
  exact ⟨hb, hpos, ne_of_gt hpos⟩

/-- C10, witness: the 1034-bit integer `Npat` passes the sanity filter,
and its expected deviation is strictly positive. -/
theorem sanity_pass_implies_positive_deviation_witness :
    1024 ≤ bit_length Npat ∧ 0 < API.rsa_expected_deviation (bit_length Npat) ∧
      API.rsa_expected_deviation (bit_length Npat) ≠ 0 :=
  sanity_pass_implies_positive_deviation Npat sanity_Npat

/-- C1, counterexample: the concrete 1034-bit integer `Npat` passes the
sanity filter, so the calibrated path scores it — but its calibrated
anomaly score is not `|inv - expected| / (deviation + 1e-12)`:
`calibrated_anomaly_score` divides by the raw deviation with no epsilon
term, and the two values differ because the numerator is nonzero. -/
theorem calibrated_score_lacks_epsilon_guard :
    API.crypto_sanity_check Npat = [] ∧
      API.calibrated_anomaly_score Npat ≠
        |API.structural_invariant Npat - API.rsa_expected_invariant (bit_length Npat)| /
          (API.rsa_expected_deviation (bit_length Npat) + 1 / 10 ^ 12) := by
  refine ⟨sanity_Npat, ?_⟩
  have hsize : bit_length Npat = 1034 := by
    unfold bit_length
    exact size_Npat
  unfold API.calibrated_anomaly_score
  rw [hsize]
  have hNpos : (1 : ℝ) < (Npat : ℝ) := by
    have h : (1 : ℕ) < Npat := by norm_num [Npat]
    exact_mod_cast h
  have hlogN : 0 < Real.log (Npat : ℝ) := Real.log_pos hNpos
  have hlog2 : 0 < Real.log 2 := Real.log_pos (by norm_num)
  have hcastlt : (Npat : ℝ) < (2 : ℝ) ^ (1034 : ℕ) := by
    have h : (Npat : ℕ) < 2 ^ 1034 := by norm_num [Npat]
    exact_mod_cast h
  have hloglt : Real.log (Npat : ℝ) < 1034 * Real.log 2 := by
    have h := Real.log_lt_log (by positivity) hcastlt
    rwa [Real.log_pow, Nat.cast_ofNat] at h
  have hinv : API.structural_invariant Npat < API.rsa_expected_invariant 1034 := by
    unfold API.structural_invariant API.rsa_expected_invariant
    push_cast
    refine mul_lt_mul hloglt ?_ ?_ ?_
    · exact le_of_lt (Real.log_lt_log (by linarith) (by linarith))
    · exact Real.log_pos (by linarith)
    · exact le_of_lt (mul_pos (by norm_num) hlog2)
  have hnum : 0 < |API.structural_invariant Npat - API.rsa_expected_invariant 1034| :=
    abs_pos.mpr (sub_ne_zero.mpr (ne_of_lt hinv))
  have hdev : 0 < API.rsa_expected_deviation 1034 := by
    unfold API.rsa_expected_deviation
    refine mul_pos (by norm_num) (Real.sqrt_pos.mpr ?_)
    norm_num
  have hmono := div_lt_div_of_pos_left hnum hdev
    (lt_add_of_pos_right _ (by norm_num : (0 : ℝ) < 1 / 10 ^ 12))
  exact ne_of_gt hmono
